import Mathlib

/-!
Shallow embedding of the history-management core of
src/wikipedia_search_gui.py.

Modelling conventions:
* Python datetime values are whole seconds since the Unix epoch, as `Int`;
  `timedelta(days = n)` is `n * 86400` seconds.  `datetime.now()` is passed
  explicitly as a `now : Int` parameter (the clock is taken as constant for
  the duration of one call).
* A Python string is modelled by `Str`: either ordinary text (`Str.lit`) or a
  well-formed ISO-8601 timestamp string carrying the instant it denotes
  (`Str.isoTs`).  `datetime.isoformat` produces the canonical timestamp
  string, `datetime.fromisoformat` parses exactly those; the literal default
  timestamp string "1970-01-01T00:00:00" of the source denotes the epoch and
  is `Str.isoTs 0`.
* JSON values produced by `json.load` are modelled by `PyVal`; a JSON object
  is an association list with `String` keys.
* Fallible Python code is embedded in `Except PyErr`; only the exception
  classes the history code can observe are distinguished.
-/

namespace WikiGui

/-- MAX_HISTORY_COUNT = 20 (source line 17). -/
def MAX_HISTORY_COUNT : Nat := 20

/-- HISTORY_RETENTION_DAYS = 15 (source line 18). -/
def HISTORY_RETENTION_DAYS : Int := 15

/-- timedelta(days = n), in seconds. -/
def timedeltaDays (n : Int) : Int := n * 86400

/-- A Python string as the history code observes it: ordinary text, or a
well-formed ISO-8601 timestamp string denoting the instant `t`. -/
inductive Str where
  | lit (s : String)
  | isoTs (t : Int)
deriving DecidableEq

/-- datetime.isoformat: the canonical timestamp string for an instant. -/
def isoformat (t : Int) : Str := Str.isoTs t

/-- datetime.fromisoformat restricted to strings: parses exactly the
well-formed timestamp strings. -/
def fromisoformat : Str → Option Int
  | Str.isoTs t => some t
  | Str.lit _ => none

/-- Truthiness of a Python string: `not query` is true exactly for the empty
string.  A well-formed timestamp string is never empty. -/
def Str.isEmptyStr : Str → Bool
  | Str.lit s => s.isEmpty
  | Str.isoTs _ => false

/-- A Python value as `json.load` can produce it. -/
inductive PyVal where
  | str (s : Str)
  | int (n : Int)
  | bool (b : Bool)
  | null
  | list (xs : List PyVal)
  | dict (d : List (String × PyVal))

/-- A Python dict, as used for one history entry. -/
abbrev Dict := List (String × PyVal)

/-- The Python exceptions the history code can observe. -/
inductive PyErr where
  | attributeError
  | typeError
  | valueError
deriving DecidableEq

/-- `d.get(k, dflt)` on a Python dict. -/
def dictGetD (d : Dict) (k : String) (dflt : PyVal) : PyVal :=
  (d.lookup k).getD dflt

/-- `d.get(k)` on a Python dict (default None). -/
def dictGet (d : Dict) (k : String) : PyVal :=
  dictGetD d k PyVal.null

/-- datetime.fromisoformat applied to an arbitrary value: a string either
parses or raises ValueError; any non-string raises TypeError. -/
def pyFromisoformat : PyVal → Except PyErr Int
  | PyVal.str s =>
    match fromisoformat s with
    | some t => Except.ok t
    | none => Except.error PyErr.valueError
  | _ => Except.error PyErr.typeError

/-- The observable state of the persisted history file as `load_history`
distinguishes it (source lines 23-30 and 55-56): absent, present but empty,
present but not valid JSON, unreadable, or holding a parsed JSON value. -/
inductive FileState where
  | absent
  | emptyFile
  | unparsable
  | ioError
  | content (v : PyVal)

/-- One migrated legacy entry (source line 39): the raw element becomes the
query field and the load time becomes the timestamp field. -/
def legacyEntry (now : Int) (item : PyVal) : Dict :=
  [("query", item), ("timestamp", PyVal.str (isoformat now))]

/-- Legacy-format migration (source lines 35-39): if the list is non-empty
and its first element is a string, every element is rebuilt as a fresh
record; otherwise the list is left as is. -/
def migrateIfLegacy (now : Int) (history : List PyVal) : List PyVal :=
  match history with
  | PyVal.str _ :: _ =>
      history.map (fun item => PyVal.dict (legacyEntry now item))
  | _ => history

/-- The retention loop (source lines 44-53): for each item, read
`item.get("timestamp", "1970-01-01T00:00:00")` and parse it; keep the item
when the parsed time is at least the cutoff, drop it when older; a
ValueError or TypeError from parsing skips the item; reading `.get` on a
non-dict raises AttributeError, which nothing in the source catches. -/
def filterValid (cutoff : Int) : List PyVal → Except PyErr (List Dict)
  | [] => Except.ok []
  | item :: rest =>
    match item with
    | PyVal.dict d =>
      match pyFromisoformat (dictGetD d "timestamp" (PyVal.str (isoformat 0))) with
      | Except.ok timestamp =>
        (filterValid cutoff rest).map
          (fun tail => if cutoff ≤ timestamp then d :: tail else tail)
      | Except.error _ => filterValid cutoff rest
    | _ => Except.error PyErr.attributeError

/-- load_history (source lines 21-56): an absent, empty, unparsable or
unreadable file and a non-list document all give the empty history; a list
document is migrated from the legacy format when applicable and then passed
through the retention filter with cutoff `now - 15 days`, computed once. -/
def load_history (now : Int) (file : FileState) : Except PyErr (List Dict) :=
  match file with
  | FileState.absent => Except.ok []
  | FileState.emptyFile => Except.ok []
  | FileState.unparsable => Except.ok []
  | FileState.ioError => Except.ok []
  | FileState.content v =>
    match v with
    | PyVal.list history =>
      filterValid (now - timedeltaDays HISTORY_RETENTION_DAYS)
        (migrateIfLegacy now history)
    | _ => Except.ok []

/-- Source line 110: the in-memory store adopts the decoded list verbatim. -/
def initStore (decoded : List Dict) : List Dict := decoded

/-- The document `json.dump` serializes (source line 62): the history list
itself. -/
def encodeDoc (h : List Dict) : PyVal := PyVal.list (h.map PyVal.dict)

/-- Outcome of one save: the document was written, or the IOError was caught
and a message printed. -/
inductive SaveResult where
  | wrote (doc : PyVal)
  | loggedError

/-- save_history (source lines 58-64): try to write the encoded document; an
IOError is caught and logged, and the function returns normally either way.
The in-memory list is not touched; it is returned alongside the outcome to
make the state explicit. -/
def save_history (ioFails : Bool) (h : List Dict) :
    Except PyErr (SaveResult × List Dict) :=
  if ioFails then Except.ok (SaveResult.loggedError, h)
  else Except.ok (SaveResult.wrote (encodeDoc h), h)

/-- Python equality of a value against a query string: only an equal string
compares equal. -/
def pyEqStr (v : PyVal) (q : Str) : Bool :=
  match v with
  | PyVal.str s => s == q
  | _ => false

/-- The list comprehension on source line 88 keeps the entries whose query
field differs from the submitted query. -/
def keepOther (q : Str) (item : Dict) : Bool :=
  ! pyEqStr (dictGet item "query") q

/-- The new entry built on source line 91. -/
def newEntry (now : Int) (q : Str) : Dict :=
  [("query", PyVal.str q), ("timestamp", PyVal.str (isoformat now))]

/-- The history-update block of search_wikipedia (source lines 86-96): drop
the entries carrying the same query, insert the new entry at the front, and
pop the last entry once if the length now exceeds the cap. -/
def record (now : Int) (q : Str) (h : List Dict) : List Dict :=
  let h1 := h.filter (keepOther q)
  let h2 := newEntry now q :: h1
  if MAX_HISTORY_COUNT < h2.length then h2.dropLast else h2

/-- The query column shown in the combo box (source lines 99 and 119):
entries built by the program always carry the "query" key, on which the
subscript of the source and `dictGet` agree. -/
def queries (h : List Dict) : List PyVal :=
  h.map (fun item => dictGet item "query")

/-- Effect of search_wikipedia on the history list (source lines 71-96): an
empty query only shows a warning and returns before the update block; any
other query is recorded. -/
def search_wikipedia (now : Int) (q : Str) (h : List Dict) : List Dict :=
  if q.isEmptyStr then h else record now q h

/-- A whole session of searches; each call carries its own current time. -/
def recordAll (calls : List (Int × Str)) (h : List Dict) : List Dict :=
  calls.foldl (fun acc c => record c.1 c.2 acc) h

/-- Specification-side keep predicate, written from the words of the spec
for the retention filter: an entry survives exactly when its timestamp field
is present, parses, and is not older than the cutoff. -/
def specKeeps (cutoff : Int) (d : Dict) : Bool :=
  match d.lookup "timestamp" with
  | some (PyVal.str s) =>
    match fromisoformat s with
    | some t => cutoff ≤ t
    | none => false
  | _ => false

end WikiGui

namespace WikiGui

/-! Helper lemmas and concrete inputs used by the claim theorems. -/

/-- A 22-entry history with pairwise distinct queries, none equal to "new". -/
def bigHistory : List Dict :=
  (List.range 22).map (fun i =>
    [("query", PyVal.str (Str.lit (toString i))), ("timestamp", PyVal.str (isoformat 0))])

/-- A decodable persisted list of 21 in-window entries with distinct queries. -/
def overfullDecoded : List Dict :=
  (List.range 21).map (fun i =>
    [("query", PyVal.str (Str.lit (toString i))), ("timestamp", PyVal.str (isoformat 0))])

theorem record_eq (now : Int) (q : Str) (h : List Dict) :
    record now q h =
      if MAX_HISTORY_COUNT < (h.filter (keepOther q)).length + 1 then
        (newEntry now q :: h.filter (keepOther q)).dropLast
      else newEntry now q :: h.filter (keepOther q) := by
  simp [record]

/-! ## C1 -/

/-- C1 counterexample: from a 22-entry history the update block pops only a
single entry, so one record call leaves the length at 22, above the cap. -/
theorem record_can_exceed_cap :
    MAX_HISTORY_COUNT < (record 0 (Str.lit "new") bigHistory).length := by decide

/-- C1 (amended): when the history respects the cap before the call, the
history-update block of search_wikipedia leaves its length at most
MAX_HISTORY_COUNT, and whenever the insertion pushes the length above the
cap the block ends with the length exactly at the cap. -/
theorem record_respects_cap (now : Int) (q : Str) (h : List Dict)
    (hlen : h.length ≤ MAX_HISTORY_COUNT) :
    (record now q h).length ≤ MAX_HISTORY_COUNT ∧
      (MAX_HISTORY_COUNT < (h.filter (keepOther q)).length + 1 →
        (record now q h).length = MAX_HISTORY_COUNT) := by
  have hf : (h.filter (keepOther q)).length ≤ h.length :=
    List.length_filter_le _ _
  rw [record_eq]
  by_cases hc : MAX_HISTORY_COUNT < (h.filter (keepOther q)).length + 1
  · rw [if_pos hc]
    rw [MAX_HISTORY_COUNT] at hc hlen ⊢
    simp only [List.length_dropLast, List.length_cons]
    omega
  · rw [if_neg hc]
    rw [MAX_HISTORY_COUNT] at hc hlen ⊢
    simp only [List.length_cons]
    omega

theorem record_respects_cap_witness :
    ([] : List Dict).length ≤ MAX_HISTORY_COUNT ∧
      (record 0 (Str.lit "a") []).length ≤ MAX_HISTORY_COUNT :=
  ⟨by decide, (record_respects_cap 0 (Str.lit "a") [] (by decide)).1⟩

/-! ## C2 -/

/-- C2 counterexample: a persisted list of 21 in-window entries decodes to
all 21 entries, and the store adopts them unchanged on init, so right after
load the in-memory length already exceeds the cap: init does not truncate. -/
theorem initStore_not_truncated :
    load_history 0 (FileState.content (PyVal.list (overfullDecoded.map PyVal.dict))) =
      Except.ok overfullDecoded ∧
    MAX_HISTORY_COUNT < (initStore overfullDecoded).length :=
  ⟨rfl, by decide⟩

/-- C2 (amended): initialization adopts whatever list decode produced
verbatim; no truncation to the cap happens on init. -/
theorem initStore_verbatim (now : Int) (file : FileState) (l : List Dict)
    (_hl : load_history now file = Except.ok l) : initStore l = l := rfl

theorem initStore_verbatim_witness :
    load_history 0 FileState.absent = Except.ok ([] : List Dict) ∧
    initStore [] = ([] : List Dict) :=
  ⟨rfl, initStore_verbatim 0 FileState.absent [] rfl⟩

/-! ## C5 -/

/-- C5: decode is not total on arbitrary persisted content.  Absent, empty,
unparsable and non-list documents do give the empty history, but a list
document holding an element without a `get` attribute, such as the JSON
document [1], raises an uncaught AttributeError to the caller. -/
theorem load_history_raises_attributeError :
    load_history 0 (FileState.content (PyVal.list [PyVal.int 1])) =
      Except.error PyErr.attributeError ∧
    load_history 0 FileState.absent = Except.ok [] ∧
    load_history 0 FileState.emptyFile = Except.ok [] ∧
    load_history 0 FileState.unparsable = Except.ok [] ∧
    load_history 0 FileState.ioError = Except.ok [] ∧
    load_history 0 (FileState.content (PyVal.int 3)) = Except.ok [] :=
  ⟨rfl, rfl, rfl, rfl, rfl, rfl⟩

/-! ## C9 -/

/-- C9: save_history never propagates the write failure: with the storage
failing it returns normally with the failure merely logged, with the storage
working it writes the encoded document; in both cases the in-memory history
it hands back is unchanged. -/
theorem save_history_nonfatal :
    (∀ h : List Dict, save_history true h = Except.ok (SaveResult.loggedError, h)) ∧
    (∀ h : List Dict, save_history false h = Except.ok (SaveResult.wrote (encodeDoc h), h)) :=
  ⟨fun _ => rfl, fun _ => rfl⟩

/-! ## C10 -/

/-- C10: submitting the empty query returns before the history-update block,
leaving the history list exactly as it was. -/
theorem search_wikipedia_empty_query (now : Int) (h : List Dict) :
    search_wikipedia now (Str.lit "") h = h := rfl

/-! ## C7 -/

theorem lookup_legacyEntry_timestamp (now : Int) (item : PyVal) (dflt : PyVal) :
    dictGetD (legacyEntry now item) "timestamp" dflt =
      PyVal.str (Str.isoTs now) := rfl

theorem filterValid_legacy (cutoff now : Int) (hc : cutoff ≤ now) (xs : List PyVal) :
    filterValid cutoff (xs.map (fun item => PyVal.dict (legacyEntry now item))) =
      Except.ok (xs.map (legacyEntry now)) := by
  induction xs with
  | nil => rfl
  | cons x xs ih =>
    simp only [List.map_cons, filterValid, lookup_legacyEntry_timestamp,
      pyFromisoformat, fromisoformat, isoformat, ih, Except.map, if_pos hc]

theorem cutoff_le_now (now : Int) :
    now - timedeltaDays HISTORY_RETENTION_DAYS ≤ now := by
  simp only [timedeltaDays, HISTORY_RETENTION_DAYS]
  omega

/-- C7: a list document whose first element is a bare string is migrated
wholesale: every element becomes a record with that element as its query
field and the load time as its timestamp, all of them fresh enough to
survive the retention filter, in their original order; in particular the
legacy document ["a", "b"] decodes to the two corresponding entries. -/
theorem load_history_legacy (now : Int) (s : Str) (rest : List PyVal) :
    load_history now (FileState.content (PyVal.list (PyVal.str s :: rest))) =
      Except.ok ((PyVal.str s :: rest).map (legacyEntry now)) ∧
    load_history now (FileState.content (PyVal.list
        [PyVal.str (Str.lit "a"), PyVal.str (Str.lit "b")])) =
      Except.ok [legacyEntry now (PyVal.str (Str.lit "a")),
        legacyEntry now (PyVal.str (Str.lit "b"))] := by
  constructor
  · show filterValid (now - timedeltaDays HISTORY_RETENTION_DAYS)
        (migrateIfLegacy now (PyVal.str s :: rest)) = _
    rw [show migrateIfLegacy now (PyVal.str s :: rest) =
        (PyVal.str s :: rest).map (fun item => PyVal.dict (legacyEntry now item)) from rfl]
    exact filterValid_legacy _ now (cutoff_le_now now) _
  · show filterValid (now - timedeltaDays HISTORY_RETENTION_DAYS)
        (migrateIfLegacy now [PyVal.str (Str.lit "a"), PyVal.str (Str.lit "b")]) = _
    rw [show migrateIfLegacy now [PyVal.str (Str.lit "a"), PyVal.str (Str.lit "b")] =
        ([PyVal.str (Str.lit "a"), PyVal.str (Str.lit "b")].map
          (fun item => PyVal.dict (legacyEntry now item))) from rfl]
    rw [filterValid_legacy _ now (cutoff_le_now now)]
    rfl

/-! ## C8 -/

theorem migrate_on_dicts (now : Int) (h : List Dict) :
    migrateIfLegacy now (h.map PyVal.dict) = h.map PyVal.dict := by
  cases h <;> rfl

theorem filterValid_within (cutoff : Int) :
    ∀ h : List Dict,
      (∀ d ∈ h, ∃ t, d.lookup "timestamp" = some (PyVal.str (Str.isoTs t)) ∧ cutoff ≤ t) →
      filterValid cutoff (h.map PyVal.dict) = Except.ok h := by
  intro h
  induction h with
  | nil => intro _; rfl
  | cons d h ih =>
    intro hw
    obtain ⟨t, hl, ht⟩ := hw d (List.mem_cons_self d h)
    have htail := ih (fun e he => hw e (List.mem_cons_of_mem d he))
    simp only [List.map_cons, filterValid, dictGetD, hl, Option.getD_some,
      pyFromisoformat, fromisoformat, htail, Except.map, if_pos ht]

/-- C8: for a history of records whose timestamps are all parsable and
within the retention window at load time, saving succeeds with the encoded
document and loading that document gives back exactly the same entries in
the same order. -/
theorem save_load_roundtrip (now : Int) (h : List Dict)
    (hw : ∀ d ∈ h, ∃ t, d.lookup "timestamp" = some (PyVal.str (Str.isoTs t)) ∧
        now - timedeltaDays HISTORY_RETENTION_DAYS ≤ t) :
    save_history false h = Except.ok (SaveResult.wrote (encodeDoc h), h) ∧
    load_history now (FileState.content (encodeDoc h)) = Except.ok h := by
  refine ⟨rfl, ?_⟩
  show filterValid (now - timedeltaDays HISTORY_RETENTION_DAYS)
      (migrateIfLegacy now (h.map PyVal.dict)) = _
  rw [migrate_on_dicts]
  exact filterValid_within _ h hw

/-- A one-entry history whose timestamp is inside the retention window. -/
def rtEntry : Dict :=
  [("query", PyVal.str (Str.lit "a")), ("timestamp", PyVal.str (Str.isoTs 100))]

theorem save_load_roundtrip_witness :
    save_history false [rtEntry] =
      Except.ok (SaveResult.wrote (encodeDoc [rtEntry]), [rtEntry]) ∧
    load_history 0 (FileState.content (encodeDoc [rtEntry])) = Except.ok [rtEntry] :=
  save_load_roundtrip 0 [rtEntry] (by
    intro d hd
    rw [List.mem_singleton] at hd
    subst hd
    exact ⟨100, rfl, by decide⟩)

/-! ## C6 -/

theorem filterValid_spec (cutoff : Int) (hpos : 0 < cutoff) :
    ∀ xs : List Dict,
      filterValid cutoff (xs.map PyVal.dict) =
        Except.ok (xs.filter (specKeeps cutoff)) := by
  intro xs
  induction xs with
  | nil => rfl
  | cons d rest ih =>
    simp only [List.map_cons, filterValid, List.filter_cons]
    rcases hl : d.lookup "timestamp" with _ | v
    · simp only [specKeeps, dictGetD, hl, Option.getD_none, pyFromisoformat,
        fromisoformat, isoformat, ih, Except.map, if_neg (by omega : ¬ cutoff ≤ 0)]
      rfl
    · cases v with
      | str s =>
        cases s with
        | lit a =>
          simp only [specKeeps, dictGetD, hl, Option.getD_some, pyFromisoformat,
            fromisoformat, ih]
          rfl
        | isoTs t =>
          simp only [specKeeps, dictGetD, hl, Option.getD_some, pyFromisoformat,
            fromisoformat, ih, Except.map]
          by_cases hct : cutoff ≤ t
          · simp [hct]
          · simp [hct]
      | int n =>
        simp only [specKeeps, dictGetD, hl, Option.getD_some, pyFromisoformat, ih]
        rfl
      | bool b =>
        simp only [specKeeps, dictGetD, hl, Option.getD_some, pyFromisoformat, ih]
        rfl
      | null =>
        simp only [specKeeps, dictGetD, hl, Option.getD_some, pyFromisoformat, ih]
        rfl
      | list ys =>
        simp only [specKeeps, dictGetD, hl, Option.getD_some, pyFromisoformat, ih]
        rfl
      | dict e =>
        simp only [specKeeps, dictGetD, hl, Option.getD_some, pyFromisoformat, ih]
        rfl

/-- C6: with the cutoff now - HISTORY_RETENTION_DAYS computed once and
positive, decoding a list of records keeps exactly the entries whose
timestamp field is present, parses, and is at least the cutoff, in their
original order, and drops the rest silently: the outcome is the input list
filtered by the specification predicate specKeeps. -/
theorem load_history_retention (now : Int) (xs : List Dict)
    (hpos : 0 < now - timedeltaDays HISTORY_RETENTION_DAYS) :
    load_history now (FileState.content (PyVal.list (xs.map PyVal.dict))) =
      Except.ok (xs.filter (specKeeps (now - timedeltaDays HISTORY_RETENTION_DAYS))) := by
  show filterValid (now - timedeltaDays HISTORY_RETENTION_DAYS)
      (migrateIfLegacy now (xs.map PyVal.dict)) = _
  rw [migrate_on_dicts]
  exact filterValid_spec _ hpos xs

/-- An entry recorded sixteen days before load time 10000000: expired. -/
def entryOld : Dict :=
  [("query", PyVal.str (Str.lit "old")),
   ("timestamp", PyVal.str (Str.isoTs (10000000 - timedeltaDays 16)))]

/-- An entry recorded fourteen days before load time 10000000: retained. -/
def entryNew : Dict :=
  [("query", PyVal.str (Str.lit "new")),
   ("timestamp", PyVal.str (Str.isoTs (10000000 - timedeltaDays 14)))]

theorem load_history_retention_witness :
    0 < (10000000 : Int) - timedeltaDays HISTORY_RETENTION_DAYS ∧
    load_history 10000000
        (FileState.content (PyVal.list [PyVal.dict entryOld, PyVal.dict entryNew])) =
      Except.ok [entryNew] := by
  refine ⟨by decide, ?_⟩
  have h := load_history_retention 10000000 [entryOld, entryNew] (by decide)
  rw [show [entryOld, entryNew].filter
      (specKeeps (10000000 - timedeltaDays HISTORY_RETENTION_DAYS)) = [entryNew] from rfl] at h
  rw [show ([entryOld, entryNew].map PyVal.dict) =
      [PyVal.dict entryOld, PyVal.dict entryNew] from rfl] at h
  exact h


/-! ## C3 -/

theorem pyEqStr_eq_true {v : PyVal} {q : Str} :
    pyEqStr v q = true ↔ v = PyVal.str q := by
  cases v <;> simp [pyEqStr]

theorem dictGet_newEntry (now : Int) (q : Str) :
    dictGet (newEntry now q) "query" = PyVal.str q := rfl

theorem queries_filter (q : Str) (h : List Dict) :
    queries (h.filter (keepOther q)) =
      (queries h).filter (fun v => ! pyEqStr v q) := by
  show (h.filter (keepOther q)).map (fun item => dictGet item "query") = _
  rw [show keepOther q =
      ((fun v => ! pyEqStr v q) ∘ fun item => dictGet item "query") from rfl]
  exact (List.filter_map _ _).symm

theorem queries_record (now : Int) (q : Str) (h : List Dict) :
    queries (record now q h) =
      if MAX_HISTORY_COUNT < (h.filter (keepOther q)).length + 1 then
        (PyVal.str q :: queries (h.filter (keepOther q))).dropLast
      else PyVal.str q :: queries (h.filter (keepOther q)) := by
  rw [record_eq]
  by_cases hc : MAX_HISTORY_COUNT < (h.filter (keepOther q)).length + 1
  · rw [if_pos hc, if_pos hc]
    show ((newEntry now q :: h.filter (keepOther q)).dropLast).map
        (fun item => dictGet item "query") = _
    rw [List.map_dropLast, List.map_cons, dictGet_newEntry]
    rfl
  · rw [if_neg hc, if_neg hc]
    show ((newEntry now q :: h.filter (keepOther q))).map
        (fun item => dictGet item "query") = _
    rw [List.map_cons, dictGet_newEntry]
    rfl

theorem head?_record (now : Int) (q : Str) (h : List Dict) :
    (queries (record now q h)).head? = some (PyVal.str q) := by
  rw [queries_record]
  by_cases hc : MAX_HISTORY_COUNT < (h.filter (keepOther q)).length + 1
  · rw [if_pos hc, List.dropLast_eq_take, List.head?_take]
    have hlen : (queries (h.filter (keepOther q))).length =
        (h.filter (keepOther q)).length := by
      simp [queries]
    rw [if_neg (by
      simp only [List.length_cons, hlen]
      rw [MAX_HISTORY_COUNT] at hc
      omega)]
    rfl
  · rw [if_neg hc]
    rfl

theorem nodup_record (now : Int) (q : Str) (h : List Dict)
    (hnd : (queries h).Nodup) : (queries (record now q h)).Nodup := by
  have h1 : (queries (h.filter (keepOther q))).Nodup := by
    rw [queries_filter]
    exact hnd.filter _
  have h2 : (PyVal.str q :: queries (h.filter (keepOther q))).Nodup := by
    rw [List.nodup_cons]
    refine ⟨?_, h1⟩
    rw [queries_filter]
    intro hmem
    have hp := List.of_mem_filter hmem
    rw [Bool.not_eq_eq_eq_not, Bool.not_true] at hp
    exact absurd (pyEqStr_eq_true.mpr rfl) (by rw [hp]; exact Bool.false_ne_true)
  rw [queries_record]
  by_cases hc : MAX_HISTORY_COUNT < (h.filter (keepOther q)).length + 1
  · rw [if_pos hc]
    exact h2.sublist (List.dropLast_sublist _)
  · rw [if_neg hc]
    exact h2

theorem nodup_recordAll (calls : List (Int × Str)) :
    ∀ h : List Dict, (queries h).Nodup → (queries (recordAll calls h)).Nodup := by
  induction calls with
  | nil => intro h hnd; exact hnd
  | cons c cs ih =>
    intro h hnd
    show (queries (recordAll cs (record c.1 c.2 h))).Nodup
    exact ih _ (nodup_record c.1 c.2 h hnd)

/-- C3: starting from a history whose query column has no duplicate, any
session of record calls keeps it duplicate free; right after a record call
the recorded query sits at index 0; and the session cat, dog, cat from the
empty history displays exactly the queries cat, dog. -/
theorem record_dedup_and_front :
    (∀ (calls : List (Int × Str)) (h : List Dict),
        (queries h).Nodup → (queries (recordAll calls h)).Nodup) ∧
    (∀ (now : Int) (q : Str) (h : List Dict),
        (queries (record now q h)).head? = some (PyVal.str q)) ∧
    queries (recordAll [(0, Str.lit "cat"), (1, Str.lit "dog"), (2, Str.lit "cat")] []) =
      [PyVal.str (Str.lit "cat"), PyVal.str (Str.lit "dog")] :=
  ⟨fun calls h hnd => nodup_recordAll calls h hnd,
   fun now q h => head?_record now q h,
   rfl⟩

theorem record_dedup_and_front_witness :
    (queries ([] : List Dict)).Nodup ∧
    (queries (recordAll [(0, Str.lit "a")] [])).Nodup :=
  ⟨List.nodup_nil, record_dedup_and_front.1 [(0, Str.lit "a")] [] List.nodup_nil⟩


/-! ## C4 -/

theorem record_fresh (now : Int) (q : Str) (h : List Dict) (acc : List Str)
    (hq : queries h = (acc.map PyVal.str).take MAX_HISTORY_COUNT)
    (hfresh : q ∉ acc) :
    queries (record now q h) = ((q :: acc).map PyVal.str).take MAX_HISTORY_COUNT := by
  have hM : MAX_HISTORY_COUNT = 20 := rfl
  have hfilter : h.filter (keepOther q) = h := by
    rw [List.filter_eq_self]
    intro item hitem
    have hmem : dictGet item "query" ∈ queries h :=
      List.mem_map_of_mem _ hitem
    rw [hq] at hmem
    have hmem2 : dictGet item "query" ∈ acc.map PyVal.str :=
      List.mem_of_mem_take hmem
    have hne : dictGet item "query" ≠ PyVal.str q := by
      intro heq
      rw [heq] at hmem2
      obtain ⟨a, ha, hae⟩ := List.mem_map.mp hmem2
      injection hae with ha2
      exact hfresh (ha2 ▸ ha)
    cases hval : pyEqStr (dictGet item "query") q with
    | false => simp [keepOther, hval]
    | true => exact absurd (pyEqStr_eq_true.mp hval) hne
  have hlq : (queries h).length = h.length := by simp [queries]
  have hlenacc : (acc.map PyVal.str).length = acc.length := List.length_map _ _
  have hlen : h.length = min MAX_HISTORY_COUNT acc.length := by
    rw [← hlq, hq, List.length_take, List.length_map]
  rw [queries_record, hfilter, hq, List.map_cons]
  by_cases hca : MAX_HISTORY_COUNT ≤ acc.length
  · rw [if_pos (by omega)]
    have hne2 : (acc.map PyVal.str).take MAX_HISTORY_COUNT ≠ [] := by
      apply List.ne_nil_of_length_pos
      rw [List.length_take, hlenacc]
      omega
    rw [List.dropLast_cons_of_ne_nil hne2,
      List.take_cons (by omega : 0 < MAX_HISTORY_COUNT)]
    congr 1
    rw [List.dropLast_eq_take, List.length_take, hlenacc, Nat.min_eq_left hca,
      List.take_take, Nat.min_eq_left (by omega : MAX_HISTORY_COUNT - 1 ≤ MAX_HISTORY_COUNT)]
  · rw [if_neg (by omega)]
    rw [List.take_of_length_le (l := acc.map PyVal.str) (by omega),
      List.take_of_length_le (l := PyVal.str q :: acc.map PyVal.str)
        (by rw [List.length_cons, hlenacc]; omega)]

theorem recordAll_stack (calls : List (Int × Str)) :
    ∀ (h : List Dict) (acc : List Str),
      queries h = (acc.map PyVal.str).take MAX_HISTORY_COUNT →
      (acc ++ calls.map Prod.snd).Nodup →
      queries (recordAll calls h) =
        (((calls.map Prod.snd).reverse ++ acc).map PyVal.str).take MAX_HISTORY_COUNT := by
  induction calls with
  | nil =>
    intro h acc hq hnd
    simpa [recordAll] using hq
  | cons c cs ih =>
    intro h acc hq hnd
    have hfresh : c.2 ∉ acc := by
      intro hmem
      exact (List.disjoint_of_nodup_append hnd) hmem (by simp)
    have hstep := record_fresh c.1 c.2 h acc hq hfresh
    have hnd2 : ((c.2 :: acc) ++ cs.map Prod.snd).Nodup := by
      have hperm : (acc ++ c.2 :: cs.map Prod.snd).Perm
          (c.2 :: (acc ++ cs.map Prod.snd)) := List.perm_middle
      have hmid := hperm.nodup_iff.mp (by simpa using hnd)
      simpa using hmid
    have hrec := ih (record c.1 c.2 h) (c.2 :: acc) hstep hnd2
    show queries (recordAll cs (record c.1 c.2 h)) = _
    rw [hrec]
    simp [List.reverse_cons, List.append_assoc]

/-- C4: from the empty history, a session of record calls with pairwise
distinct queries displays exactly the most recent MAX_HISTORY_COUNT queries,
most recent first: the surviving entries are the newest ones and the evicted
ones are always the oldest by recency; in particular recording the twenty
one distinct queries q1 to q21 in order displays q21 down to q2, with q1
evicted. -/
theorem record_evicts_oldest :
    (∀ calls : List (Int × Str), (calls.map Prod.snd).Nodup →
        queries (recordAll calls []) =
          (((calls.map Prod.snd).reverse).map PyVal.str).take MAX_HISTORY_COUNT) ∧
    queries (recordAll ((List.range 21).map
        (fun i => ((0 : Int), Str.lit ("q" ++ toString (i + 1))))) []) =
      (List.range 20).map (fun i => PyVal.str (Str.lit ("q" ++ toString (21 - i)))) := by
  constructor
  · intro calls hnd
    have hfull := recordAll_stack calls [] [] (by simp [queries]) (by simpa using hnd)
    simpa using hfull
  · rfl

theorem record_evicts_oldest_witness :
    ([((0 : Int), Str.lit "a")].map Prod.snd).Nodup ∧
    queries (recordAll [((0 : Int), Str.lit "a")] []) =
      ((([((0 : Int), Str.lit "a")].map Prod.snd).reverse).map PyVal.str).take
        MAX_HISTORY_COUNT :=
  ⟨by simp, record_evicts_oldest.1 [((0 : Int), Str.lit "a")] (by simp)⟩

end WikiGui
